import Mathlib

/-!
Verification of the HYDWS client library (hydws-client).

The repository is a Python client for a hydraulic-data web service: a
`HYDWSDataSource` issuing shaped queries with name-or-id reference
resolution, and a hierarchy parser (`BoreholeHydraulics` /
`SectionHydraulics`) building a Borehole → Section object graph whose
hydraulic time series are exposed as timestamp-indexed tables, with a
load-back operation serializing an edited table into the hydraulics JSON
record array.

The Python modules `hydws/client.py` and `hydws/parser.py` are not part of
the material under review (only the READMEs, the user-guide notebook with
its recorded outputs, packaging and CI are), so the operations below are
modelled from the specification and from the behavior recorded in those
documents.  Numeric channel values are modelled as integers (the client
passes values through untouched, so their carrier is irrelevant to every
property considered here), and timestamps as natural numbers (an exact
epoch-based instant; the spec demands formatting be lossless).
-/

/-- Modelled from the spec: a JSON value occurring as a channel field in a
hydraulics record — either a number or the JSON `null` placeholder (the
service convention is that a missing channel is field-absent, never null). -/
inductive JVal
  | num (q : Int)
  | null
deriving DecidableEq

/-- Modelled from the spec: one hydraulics record — one timestamp plus one
value per present channel field.  A channel absent at this timestamp is
simply not a key of `values`. -/
structure HydRecord where
  datetime : Nat
  values : List (String × JVal)
deriving DecidableEq

/-- Numeric value of channel `c` in a record's field list: `none` when the
field is absent or holds JSON `null` (both parse as a missing entry). -/
def chanVal (kvs : List (String × JVal)) (c : String) : Option Int :=
  match kvs.lookup c with
  | some (JVal.num q) => some q
  | _ => none

/-- Append a key to the running column list unless already present, so that
columns are established in order of first appearance. -/
def addKey (acc : List String) (k : String) : List String :=
  if k ∈ acc then acc else acc ++ [k]

/-- Modelled from the spec: the column set of a hydraulics record array —
one column per distinct channel key observed, in first-appearance order
(columns are only known once at least one record defines them). -/
def colOrder (rs : List HydRecord) : List String :=
  rs.foldl (fun acc r => (r.values.map Prod.fst).foldl addKey acc) []

/-- Modelled from the spec: the tabular structure a section's hydraulics
parse into — a timestamp index and, per row, one optional value per channel
column (channels absent from a given record are represented as missing,
not zero). -/
structure HydTable where
  cols : List String
  rows : List (Nat × List (Option Int))
deriving DecidableEq

/-- Modelled from the spec: parsing a hydraulics JSON record array into the
timestamp-indexed table: columns in first-appearance order, each row keeping
the record's timestamp and looking up every column in the record. -/
def parseHyd (rs : List HydRecord) : HydTable :=
  ⟨colOrder rs, rs.map (fun r => (r.datetime, (colOrder rs).map (chanVal r.values)))⟩

/-- Modelled from the spec: serializing one table row back into a record's
field list — present values become numeric fields, missing values are
omitted entirely (field-absent, never a null placeholder). -/
def serializeRow (cols : List String) (vals : List (Option Int)) : List (String × JVal) :=
  (cols.zip vals).filterMap (fun cv => cv.2.map (fun a => (cv.1, JVal.num a)))

/-- Modelled from the spec: the load-back serialization of a table into the
hydraulics JSON record array, one record per row in index order. -/
def serializeHyd (t : HydTable) : List HydRecord :=
  t.rows.map (fun rv => ⟨rv.1, serializeRow t.cols rv.2⟩)

/-- A valid hydraulics table with a non-degenerate timestamp index: at least
one channel column, no duplicate columns, unique timestamps, every row as
wide as the column list, and columns established in first-appearance order
by the records that define them (the canonical form every parsed table has). -/
def ValidTable (t : HydTable) : Prop :=
  t.cols ≠ [] ∧ t.cols.Nodup ∧ (t.rows.map Prod.fst).Nodup ∧
    (∀ rv ∈ t.rows, rv.2.length = t.cols.length) ∧
    colOrder (serializeHyd t) = t.cols

instance (t : HydTable) : Decidable (ValidTable t) := by
  unfold ValidTable; infer_instance

/-- A concrete two-row table (second row missing its `toppressure` value),
used to instantiate the round-trip and serialization theorems. -/
def demoTable : HydTable :=
  ⟨["topflow", "toppressure"],
   [(1712365200, [some 212990, some 47104980]),
    (1712365201, [some 212990, none])]⟩

/-- Modelled from the spec: a scalar metadata value of a borehole or section
JSON mapping — a string, number, boolean, or a small value object such as
the `measureddepth: {"value": 3339.1}` shape (passed through verbatim,
never validated). -/
inductive MetaVal
  | str (s : String)
  | num (q : Int)
  | boolean (b : Bool)
  | objVal (kvs : List (String × Int))
deriving DecidableEq

/-- String content of field `k` of a JSON mapping, when present. -/
def getStr (kvs : List (String × MetaVal)) (k : String) : Option String :=
  match kvs.lookup k with
  | some (MetaVal.str s) => some s
  | _ => none

/-- Modelled from the spec: `SchemaError` — the JSON is valid but a required
field is missing. -/
inductive SchemaError
  | missingField (field : String)
deriving DecidableEq

/-- Modelled from the spec: a Section-shaped JSON mapping — scalar metadata
fields plus an optional `hydraulics` record array (`none` models the
`hydraulics` key being absent from the mapping). -/
structure SectionJson where
  fields : List (String × MetaVal)
  hydraulics : Option (List HydRecord)
deriving DecidableEq

/-- Modelled from the spec: the parsed `SectionHydraulics` object — the
required identifiers, the scalar metadata passed through verbatim (the
hydraulics array excluded), and the hydraulics series as a parsed table. -/
structure Section where
  publicid : String
  name : String
  metadata : List (String × MetaVal)
  hydraulics : HydTable
deriving DecidableEq

/-- Modelled from the spec: constructing a `SectionHydraulics` object from a
Section-shaped JSON mapping — `publicid` and `name` must be present or
construction fails with a `SchemaError`; every other scalar field passes
through verbatim with no validation; an absent or empty `hydraulics` array
parses to the canonical empty table. -/
def mkSection (j : SectionJson) : Except SchemaError Section :=
  match getStr j.fields "publicid" with
  | none => .error (.missingField "publicid")
  | some p =>
    match getStr j.fields "name" with
    | none => .error (.missingField "name")
    | some n => .ok ⟨p, n, j.fields, parseHyd (j.hydraulics.getD [])⟩

/-- Modelled from the spec: a Borehole-shaped JSON mapping — scalar metadata
fields plus an optional `sections` array. -/
structure BoreholeJson where
  fields : List (String × MetaVal)
  sections : Option (List SectionJson)
deriving DecidableEq

/-- Modelled from the spec: the parsed `BoreholeHydraulics` object — required
identifiers, scalar metadata verbatim (the `sections` array excluded), and
the ordered store of owned Section objects; the id-keyed and name-keyed
access paths below both resolve to addresses into this one store. -/
structure Borehole where
  publicid : String
  name : String
  metadata : List (String × MetaVal)
  store : List Section
deriving DecidableEq

/-- Construct each element in order, propagating the first failure. -/
def mapExcept (f : α → Except ε β) : List α → Except ε (List β)
  | [] => .ok []
  | a :: l =>
    match f a with
    | .error e => .error e
    | .ok b =>
      match mapExcept f l with
      | .error e => .error e
      | .ok bs => .ok (b :: bs)

/-- Modelled from the spec: constructing a `BoreholeHydraulics` object from a
Borehole-shaped JSON mapping — required fields `publicid` and `name`, scalar
metadata verbatim, and every section of the (possibly absent) `sections`
array parsed in order into the owned store. -/
def mkBorehole (j : BoreholeJson) : Except SchemaError Borehole :=
  match getStr j.fields "publicid" with
  | none => .error (.missingField "publicid")
  | some p =>
    match getStr j.fields "name" with
    | none => .error (.missingField "name")
    | some n =>
      match mapExcept mkSection (j.sections.getD []) with
      | .error e => .error e
      | .ok secs => .ok ⟨p, n, j.fields, secs⟩

/-- Modelled from the spec: the address (index into the owned section store)
that indexing a borehole by `publicid` (`borehole[section_id]`) resolves
to.  Two access paths yielding the same address dereference to the same
owned object — the model of reference identity. -/
def addrOfId (b : Borehole) (p : String) : Option Nat :=
  b.store.findIdx? (fun s => s.publicid == p)

/-- Modelled from the spec: the address the name-keyed secondary index
(`borehole.nloc[section_name]`) resolves to, over the same owned store. -/
def addrOfName (b : Borehole) (n : String) : Option Nat :=
  b.store.findIdx? (fun s => s.name == n)

/-- Modelled from the spec: the entity kind carried by a failed reference
resolution, for diagnostics. -/
inductive Entity
  | boreholeKind
  | sectionKind
deriving DecidableEq

/-- Modelled from the spec: the `ReferenceNotFound` condition — the literal
input string that failed to resolve, plus the entity kind. -/
structure RefNotFound where
  input : String
  kind : Entity
deriving DecidableEq

/-- Replace the hydraulics series of the section at address `i`, keeping its
identifiers and metadata and leaving every other list entry untouched. -/
def replaceHydAt : List Section → Nat → HydTable → List Section
  | [], _, _ => []
  | s :: rest, 0, t => ⟨s.publicid, s.name, s.metadata, t⟩ :: rest
  | s :: rest, i + 1, t => s :: replaceHydAt rest i t

/-- Modelled from the spec: `load_hydraulics_dataframe` — resolve the
targeted section reference inside the borehole (publicid first, then name)
and replace that section's hydraulics series entirely with the given table;
an unresolvable reference fails with `ReferenceNotFound`. -/
def loadHydraulicsDataframe (b : Borehole) (ref : String) (t : HydTable) :
    Except RefNotFound Borehole :=
  match addrOfId b ref with
  | some i => .ok ⟨b.publicid, b.name, b.metadata, replaceHydAt b.store i t⟩
  | none =>
    match addrOfName b ref with
    | some i => .ok ⟨b.publicid, b.name, b.metadata, replaceHydAt b.store i t⟩
    | none => .error ⟨ref, .sectionKind⟩

/-- A concrete Section-shaped JSON mapping with an empty hydraulics array. -/
def demoSectionJsonA : SectionJson :=
  ⟨[("publicid", .str "id-sec-1"), ("name", .str "16A-32/section_01"),
    ("topclosed", .boolean true), ("topmeasureddepth", .objVal [("value", 3278)])],
   some []⟩

/-- A concrete Section-shaped JSON mapping with the hydraulics key absent. -/
def demoSectionJsonB : SectionJson :=
  ⟨[("publicid", .str "id-sec-2"), ("name", .str "16A-32/section_02"),
    ("description", .str "20 ft perforated interval")],
   none⟩

/-- A concrete Borehole-shaped JSON mapping holding the two demo sections. -/
def demoBoreholeJson : BoreholeJson :=
  ⟨[("publicid", .str "id-bh-a"), ("name", .str "16A-32"),
    ("location", .str "FORGE"), ("measureddepth", .objVal [("value", 3339)])],
   some [demoSectionJsonA, demoSectionJsonB]⟩

/-- The Borehole object the demo JSON constructs to. -/
def demoBorehole : Borehole :=
  ⟨"id-bh-a", "16A-32", demoBoreholeJson.fields,
   [⟨"id-sec-1", "16A-32/section_01", demoSectionJsonA.fields, ⟨[], []⟩⟩,
    ⟨"id-sec-2", "16A-32/section_02", demoSectionJsonB.fields, ⟨[], []⟩⟩]⟩

/-- The demo borehole after loading `demoTable` into its first section. -/
def demoBoreholeLoaded : Borehole :=
  ⟨"id-bh-a", "16A-32", demoBoreholeJson.fields,
   [⟨"id-sec-1", "16A-32/section_01", demoSectionJsonA.fields, demoTable⟩,
    ⟨"id-sec-2", "16A-32/section_02", demoSectionJsonB.fields, ⟨[], []⟩⟩]⟩

/-- Modelled from the spec: the lightweight section entry of a service
listing, together with the hydraulics record array the service returns for
it in the requested time window. -/
structure SectionInfo where
  publicid : String
  name : String
  hydraulics : List HydRecord
deriving DecidableEq

/-- Modelled from the spec: one borehole of the service listing with its
sections, in service order. -/
structure BoreholeInfo where
  publicid : String
  name : String
  sections : List SectionInfo
deriving DecidableEq

/-- Modelled from the spec: the black-box HYDWS service, i.e. the listing it
returns at query time (the transport is the caller's collaborator and is
not modelled; time scoping of hydraulics rows happens on the service side). -/
structure Server where
  boreholes : List BoreholeInfo
deriving DecidableEq

/-- Modelled from the spec: name-or-id resolution against a freshly fetched
listing of (name, publicid) pairs — exact match on `publicid` values first,
then exact match on `name` values, and when both fail a `ReferenceNotFound`
carrying the literal input and the entity kind. -/
def resolveRef (listing : List (String × String)) (kind : Entity) (ref : String) :
    Except RefNotFound String :=
  match listing.find? (fun p => p.2 == ref) with
  | some p => .ok p.2
  | none =>
    match listing.find? (fun p => p.1 == ref) with
    | some p => .ok p.2
    | none => .error ⟨ref, kind⟩

/-- Modelled from the spec: `list_boreholes` — the full metadata listing in
service order (no time filter applies). -/
def listBoreholes (srv : Server) : List BoreholeInfo :=
  srv.boreholes

/-- The (name, publicid) pairs of the current borehole listing, in service
order. -/
def boreholeListing (srv : Server) : List (String × String) :=
  (listBoreholes srv).map (fun b => (b.name, b.publicid))

/-- The (name, publicid) pairs of a borehole's sections, in service order. -/
def sectionListing (b : BoreholeInfo) : List (String × String) :=
  b.sections.map (fun s => (s.name, s.publicid))

/-- Resolve a borehole reference against a freshly fetched listing. -/
def resolveBorehole (srv : Server) (ref : String) : Except RefNotFound String :=
  resolveRef (boreholeListing srv) .boreholeKind ref

/-- The borehole record the service returns for a publicid. -/
def findBorehole (srv : Server) (bid : String) : Option BoreholeInfo :=
  srv.boreholes.find? (fun b => b.publicid == bid)

/-- The section record of a borehole for a section publicid. -/
def findSection (b : BoreholeInfo) (sid : String) : Option SectionInfo :=
  b.sections.find? (fun s => s.publicid == sid)

/-- Resolve a section reference within a resolved borehole. -/
def resolveSection (b : BoreholeInfo) (ref : String) : Except RefNotFound String :=
  resolveRef (sectionListing b) .sectionKind ref

/-- Modelled from the spec: one HTTP request issued against the service. -/
inductive Request
  | listing
  | fetchBorehole (bid : String) (start finish : Nat)
  | fetchSection (bid sid : String) (start finish : Nat)
deriving DecidableEq

/-- Modelled from the spec: the DataSource error conditions relevant to the
claims — a failed reference resolution and an invalid time window. -/
inductive DsError
  | refNotFound (e : RefNotFound)
  | invalidTimeRange
deriving DecidableEq

/-- Modelled from the spec: `get_borehole` — the `start <= end` precondition
is checked before any network traffic; then the reference is resolved
against a freshly fetched listing and the borehole fetched.  The second
component is the trace of network requests the call issued. -/
def getBorehole (srv : Server) (ref : String) (start finish : Nat) :
    Except DsError BoreholeInfo × List Request :=
  if finish < start then (.error .invalidTimeRange, [])
  else
    match resolveBorehole srv ref with
    | .error er => (.error (.refNotFound er), [.listing])
    | .ok bid =>
      match findBorehole srv bid with
      | none => (.error (.refNotFound ⟨ref, .boreholeKind⟩), [.listing])
      | some b => (.ok b, [.listing, .fetchBorehole bid start finish])

/-- Modelled from the spec: `get_section` — same precondition, scoped to one
section of the resolved borehole, both references independently resolved. -/
def getSection (srv : Server) (bref sref : String) (start finish : Nat) :
    Except DsError SectionInfo × List Request :=
  if finish < start then (.error .invalidTimeRange, [])
  else
    match resolveBorehole srv bref with
    | .error er => (.error (.refNotFound er), [.listing])
    | .ok bid =>
      match findBorehole srv bid with
      | none => (.error (.refNotFound ⟨bref, .boreholeKind⟩), [.listing])
      | some b =>
        match resolveSection b sref with
        | .error er => (.error (.refNotFound er), [.listing])
        | .ok sid =>
          match findSection b sid with
          | none => (.error (.refNotFound ⟨sref, .sectionKind⟩), [.listing])
          | some s => (.ok s, [.listing, .fetchSection bid sid start finish])

/-- The format selector of `get_section_hydraulics`. -/
inductive HydFormat
  | records
  | pandas
deriving DecidableEq

/-- The payload of `get_section_hydraulics`: the raw hydraulics record
array, or the already-parsed table. -/
inductive HydResult
  | raw (rs : List HydRecord)
  | table (t : HydTable)
deriving DecidableEq

/-- Modelled from the spec: `get_section_hydraulics` — the convenience fetch
returning just the hydraulics of `get_section`, raw or parsed according to
the requested format; the time window is validated before any request. -/
def getSectionHydraulics (srv : Server) (bref sref : String) (start finish : Nat)
    (fmt : HydFormat) : Except DsError HydResult × List Request :=
  match getSection srv bref sref start finish with
  | (.error e, reqs) => (.error e, reqs)
  | (.ok s, reqs) =>
    (match fmt with
     | .records => .ok (.raw s.hydraulics)
     | .pandas => .ok (.table (parseHyd s.hydraulics)), reqs)

/-- The field selection of the name-listing operations. -/
inductive NameFields
  | nameOnly
  | idOnly
  | both
deriving DecidableEq

/-- Modelled from the user guide and current README (`only returns name,
publicid or both (default is name)`): the default field selection of the
name-listing operations is the plain name. -/
def defaultNameFields : NameFields := .nameOnly

/-- The result shapes of the name-listing operations. -/
inductive NamesResult
  | names (l : List String)
  | ids (l : List String)
  | pairs (l : List (String × String))
deriving DecidableEq

/-- Project a (name, publicid) listing according to the field selection. -/
def selectFields (listing : List (String × String)) : NameFields → NamesResult
  | .nameOnly => .names (listing.map Prod.fst)
  | .idOnly => .ids (listing.map Prod.snd)
  | .both => .pairs listing

/-- Modelled from the user guide: `list_borehole_names` with an explicit
field selection, derived from `list_boreholes` preserving service order. -/
def listBoreholeNamesWith (srv : Server) (fields : NameFields) : NamesResult :=
  selectFields (boreholeListing srv) fields

/-- `list_borehole_names()` as called with default arguments. -/
def listBoreholeNames (srv : Server) : NamesResult :=
  listBoreholeNamesWith srv defaultNameFields

/-- Modelled from the user guide: `list_section_names` with an explicit
field selection — resolve the borehole reference, then project its section
listing in service order. -/
def listSectionNamesWith (srv : Server) (bref : String) (fields : NameFields) :
    Except DsError NamesResult :=
  match resolveBorehole srv bref with
  | .error er => .error (.refNotFound er)
  | .ok bid =>
    match findBorehole srv bid with
    | none => .error (.refNotFound ⟨bref, .boreholeKind⟩)
    | some b => .ok (selectFields (sectionListing b) fields)

/-- `list_section_names(borehole_ref)` as called with default arguments. -/
def listSectionNames (srv : Server) (bref : String) : Except DsError NamesResult :=
  listSectionNamesWith srv bref defaultNameFields

/-- A concrete service listing used to instantiate the DataSource
theorems: the two-borehole setup of the user guide. -/
def demoServer : Server :=
  ⟨[⟨"id-bh-a", "16A-32",
     [⟨"id-sec-1", "16A-32/section_01", []⟩,
      ⟨"id-sec-2", "16A-32/section_02", []⟩]⟩,
    ⟨"id-bh-b", "16B-32", []⟩]⟩

/-- The first borehole of the demo service listing. -/
def demoBoreholeInfo : BoreholeInfo :=
  ⟨"id-bh-a", "16A-32",
   [⟨"id-sec-1", "16A-32/section_01", []⟩,
    ⟨"id-sec-2", "16A-32/section_02", []⟩]⟩

/-! ### Theorems -/

@[simp]
theorem serializeRow_nil_left (vals : List (Option Int)) : serializeRow [] vals = [] := by
  simp [serializeRow]

@[simp]
theorem serializeRow_nil_right (cols : List String) : serializeRow cols [] = [] := by
  simp [serializeRow]

@[simp]
theorem serializeRow_cons_none (c : String) (cs : List String) (vs : List (Option Int)) :
    serializeRow (c :: cs) (none :: vs) = serializeRow cs vs := by
  simp [serializeRow]

@[simp]
theorem serializeRow_cons_some (c : String) (cs : List String) (a : Int)
    (vs : List (Option Int)) :
    serializeRow (c :: cs) (some a :: vs) = (c, JVal.num a) :: serializeRow cs vs := by
  simp [serializeRow]

theorem mem_cols_of_mem_keys_serializeRow (cols : List String) (vals : List (Option Int))
    (k : String) (h : k ∈ (serializeRow cols vals).map Prod.fst) : k ∈ cols := by
  induction cols generalizing vals with
  | nil => simp at h
  | cons c cs ih =>
    cases vals with
    | nil => simp at h
    | cons v vs =>
      cases v with
      | none =>
        rw [serializeRow_cons_none] at h
        exact List.mem_cons_of_mem _ (ih vs h)
      | some a =>
        rw [serializeRow_cons_some] at h
        simp only [List.map_cons, List.mem_cons] at h
        cases h with
        | inl h => subst h; exact List.mem_cons_self _ _
        | inr h => exact List.mem_cons_of_mem _ (ih vs h)

theorem lookup_serializeRow_eq_none (cols : List String) (vals : List (Option Int))
    (k : String) (h : k ∉ cols) : (serializeRow cols vals).lookup k = none := by
  induction cols generalizing vals with
  | nil => simp
  | cons c cs ih =>
    have hkc : k ≠ c := fun e => h (e ▸ List.mem_cons_self c cs)
    have hkcs : k ∉ cs := fun m => h (List.mem_cons_of_mem _ m)
    cases vals with
    | nil => simp
    | cons v vs =>
      cases v with
      | none => rw [serializeRow_cons_none]; exact ih vs hkcs
      | some a =>
        rw [serializeRow_cons_some, List.lookup_cons]
        cases hbe : k == c with
        | true => exact absurd (eq_of_beq hbe) hkc
        | false => exact ih vs hkcs

theorem chanVal_serializeRow (cols : List String) (vals : List (Option Int))
    (hnd : cols.Nodup) (hl : vals.length = cols.length) :
    cols.map (chanVal (serializeRow cols vals)) = vals := by
  induction cols generalizing vals with
  | nil =>
    cases vals with
    | nil => rfl
    | cons v vs => simp at hl
  | cons c cs ih =>
    cases vals with
    | nil => simp at hl
    | cons v vs =>
      obtain ⟨hc, hcs⟩ := List.nodup_cons.mp hnd
      have hlen : vs.length = cs.length := by simpa using hl
      cases v with
      | none =>
        rw [serializeRow_cons_none]
        simp only [List.map_cons]
        have hhead : chanVal (serializeRow cs vs) c = none := by
          unfold chanVal
          rw [lookup_serializeRow_eq_none cs vs c hc]
        rw [hhead, ih vs hcs hlen]
      | some a =>
        rw [serializeRow_cons_some]
        simp only [List.map_cons]
        have hhead : chanVal ((c, JVal.num a) :: serializeRow cs vs) c = some a := by
          unfold chanVal
          rw [List.lookup_cons_self]
        have htail : cs.map (chanVal ((c, JVal.num a) :: serializeRow cs vs)) =
            cs.map (chanVal (serializeRow cs vs)) := by
          apply List.map_congr_left
          intro x hx
          have hxc : (x == c) = false := by
            cases hbe : x == c with
            | true => exact absurd (eq_of_beq hbe ▸ hx) hc
            | false => rfl
          unfold chanVal
          rw [List.lookup_cons, hxc]
        rw [hhead, htail, ih vs hcs hlen]

/-- C1: for every valid hydraulics table with a non-degenerate timestamp
index, serializing it into the hydraulics JSON record array and re-parsing
that array yields exactly the same table — every value, every missing entry
and every timestamp is preserved (structural equality, so no rounding
drift anywhere). -/
theorem c1_hydraulics_round_trip (t : HydTable) (h : ValidTable t) :
    parseHyd (serializeHyd t) = t := by
  obtain ⟨-, hnd, -, hrows, hcols⟩ := h
  unfold parseHyd
  rw [hcols]
  have hr : (serializeHyd t).map
      (fun r => (r.datetime, t.cols.map (chanVal r.values))) = t.rows := by
    unfold serializeHyd
    rw [List.map_map]
    have he : ∀ rv ∈ t.rows,
        ((fun r : HydRecord => (r.datetime, t.cols.map (chanVal r.values))) ∘
          fun rv : Nat × List (Option Int) =>
            (⟨rv.1, serializeRow t.cols rv.2⟩ : HydRecord)) rv = id rv := by
      intro rv hrv
      simp only [Function.comp_apply, id]
      rw [chanVal_serializeRow t.cols rv.2 hnd (hrows rv hrv)]
    rw [List.map_congr_left he, List.map_id]
  rw [hr]

theorem c1_hydraulics_round_trip_witness :
    ValidTable demoTable ∧ parseHyd (serializeHyd demoTable) = demoTable :=
  ⟨by decide, c1_hydraulics_round_trip demoTable (by decide)⟩

theorem serializeRow_no_null (cols : List String) (vals : List (Option Int)) :
    ∀ kv ∈ serializeRow cols vals, kv.2 ≠ JVal.null := by
  intro kv hkv
  unfold serializeRow at hkv
  rw [List.mem_filterMap] at hkv
  obtain ⟨cv, -, hf⟩ := hkv
  rw [Option.map_eq_some'] at hf
  obtain ⟨a, -, ha⟩ := hf
  rw [← ha]
  simp

theorem not_mem_keys_serializeRow (cols : List String) (vals : List (Option Int))
    (i : Nat) (c : String) (hnd : cols.Nodup)
    (hc : cols[i]? = some c) (hm : vals[i]? = some none) :
    c ∉ (serializeRow cols vals).map Prod.fst := by
  induction cols generalizing vals i with
  | nil => simp at hc
  | cons c0 cs ih =>
    cases vals with
    | nil => simp at hm
    | cons v vs =>
      obtain ⟨h0, hcs⟩ := List.nodup_cons.mp hnd
      cases i with
      | zero =>
        obtain rfl : c0 = c := by simpa using hc
        obtain rfl : v = (none : Option Int) := by simpa using hm
        rw [serializeRow_cons_none]
        intro hmem
        exact h0 (mem_cols_of_mem_keys_serializeRow cs vs _ hmem)
      | succ j =>
        rw [List.getElem?_cons_succ] at hc hm
        have hmemc : c ∈ cs := List.getElem?_mem hc
        cases v with
        | none =>
          rw [serializeRow_cons_none]
          exact ih vs j hcs hc hm
        | some a =>
          rw [serializeRow_cons_some]
          simp only [List.map_cons, List.mem_cons, not_or]
          refine ⟨fun he => h0 (he ▸ hmemc), ih vs j hcs hc hm⟩

/-- C6: a missing value at some (timestamp, channel) position of the table
is serialized by omitting that channel's field entirely from the JSON record
for that timestamp, and no record emitted by the load-back serialization
ever carries a null placeholder. -/
theorem c6_missing_serializes_field_absent (t : HydTable) (ts : Nat)
    (vals : List (Option Int)) (i : Nat) (c : String)
    (hrow : (ts, vals) ∈ t.rows) (hnd : t.cols.Nodup)
    (hc : t.cols[i]? = some c) (hm : vals[i]? = some none) :
    (⟨ts, serializeRow t.cols vals⟩ : HydRecord) ∈ serializeHyd t ∧
    c ∉ (serializeRow t.cols vals).map Prod.fst ∧
    ∀ kv ∈ serializeRow t.cols vals, kv.2 ≠ JVal.null := by
  refine ⟨?_, not_mem_keys_serializeRow _ _ i c hnd hc hm, serializeRow_no_null _ _⟩
  unfold serializeHyd
  exact List.mem_map.mpr ⟨(ts, vals), hrow, rfl⟩

theorem c6_missing_serializes_field_absent_witness :
    (⟨1712365201, serializeRow demoTable.cols [some 212990, none]⟩ : HydRecord) ∈
      serializeHyd demoTable ∧
    "toppressure" ∉ (serializeRow demoTable.cols [some 212990, none]).map Prod.fst ∧
    ∀ kv ∈ serializeRow demoTable.cols [some 212990, none], kv.2 ≠ JVal.null :=
  c6_missing_serializes_field_absent demoTable 1712365201 [some 212990, none] 1
    "toppressure" (by decide) (by decide) (by decide) (by decide)

/-- C8: an empty hydraulics array parses to the canonical zero-row,
zero-column table, and a Section JSON whose `hydraulics` array is empty or
whose `hydraulics` key is absent entirely is still constructible (no
failure), its `.hydraulics` being that canonical empty table. -/
theorem c8_empty_hydraulics (j : SectionJson)
    (hp : (getStr j.fields "publicid").isSome)
    (hn : (getStr j.fields "name").isSome) :
    parseHyd [] = (⟨[], []⟩ : HydTable) ∧
    (j.hydraulics = some [] ∨ j.hydraulics = none →
      ∃ s : Section, mkSection j = .ok s ∧ s.hydraulics = ⟨[], []⟩) := by
  refine ⟨rfl, ?_⟩
  intro hj
  obtain ⟨p, hp'⟩ := Option.isSome_iff_exists.mp hp
  obtain ⟨n, hn'⟩ := Option.isSome_iff_exists.mp hn
  refine ⟨⟨p, n, j.fields, parseHyd (j.hydraulics.getD [])⟩, ?_, ?_⟩
  · unfold mkSection
    rw [hp', hn']
  · cases hj with
    | inl h => rw [h]; rfl
    | inr h => rw [h]; rfl

theorem c8_empty_hydraulics_witness :
    parseHyd [] = (⟨[], []⟩ : HydTable) ∧
    (∃ s : Section, mkSection demoSectionJsonB = .ok s ∧ s.hydraulics = ⟨[], []⟩) :=
  ⟨(c8_empty_hydraulics demoSectionJsonB (by decide) (by decide)).1,
   (c8_empty_hydraulics demoSectionJsonB (by decide) (by decide)).2 (Or.inr rfl)⟩

theorem mkSection_ok_iff (j : SectionJson) :
    (∃ s, mkSection j = .ok s) ↔
      (getStr j.fields "publicid").isSome ∧ (getStr j.fields "name").isSome := by
  unfold mkSection
  cases hp : getStr j.fields "publicid" with
  | none => simp
  | some p =>
    cases hn : getStr j.fields "name" with
    | none => simp
    | some n => simp

theorem mapExcept_ok_iff (f : α → Except ε β) (l : List α) :
    (∃ bs, mapExcept f l = .ok bs) ↔ ∀ a ∈ l, ∃ b, f a = .ok b := by
  induction l with
  | nil => simp [mapExcept]
  | cons a l ih =>
    constructor
    · rintro ⟨bs, hbs⟩
      unfold mapExcept at hbs
      cases hfa : f a with
      | error e => rw [hfa] at hbs; simp at hbs
      | ok b =>
        rw [hfa] at hbs
        cases hml : mapExcept f l with
        | error e => rw [hml] at hbs; simp at hbs
        | ok bs' =>
          intro x hx
          rcases List.mem_cons.mp hx with rfl | hx'
          · exact ⟨b, hfa⟩
          · exact (ih.mp ⟨bs', hml⟩) x hx'
    · intro h
      obtain ⟨b, hb⟩ := h a (List.mem_cons_self a l)
      obtain ⟨bs, hbs⟩ := ih.mpr (fun x hx => h x (List.mem_cons_of_mem _ hx))
      exact ⟨b :: bs, by unfold mapExcept; rw [hb, hbs]⟩

/-- C9: constructing a Section or a Borehole from a JSON mapping fails with
a SchemaError exactly when a required field (`publicid` or `name`) is
absent (for a borehole: from it or from one of its sections); when the
required fields are present construction succeeds, and every other scalar
metadata field is passed through verbatim with no validation of its
value. -/
theorem c9_required_fields (j : SectionJson) (jb : BoreholeJson) :
    ((∃ s, mkSection j = .ok s) ↔
      (getStr j.fields "publicid").isSome ∧ (getStr j.fields "name").isSome) ∧
    (∀ s, mkSection j = .ok s →
      s.metadata = j.fields ∧ getStr j.fields "publicid" = some s.publicid ∧
        getStr j.fields "name" = some s.name) ∧
    ((∃ b, mkBorehole jb = .ok b) ↔
      ((getStr jb.fields "publicid").isSome ∧ (getStr jb.fields "name").isSome ∧
        ∀ sj ∈ jb.sections.getD [],
          (getStr sj.fields "publicid").isSome ∧ (getStr sj.fields "name").isSome)) ∧
    (∀ b, mkBorehole jb = .ok b → b.metadata = jb.fields) := by
  refine ⟨mkSection_ok_iff j, ?_, ?_, ?_⟩
  · intro s hs
    unfold mkSection at hs
    cases hp : getStr j.fields "publicid" with
    | none => rw [hp] at hs; simp at hs
    | some p =>
      rw [hp] at hs
      cases hn : getStr j.fields "name" with
      | none => rw [hn] at hs; simp at hs
      | some n =>
        rw [hn] at hs
        obtain rfl : (⟨p, n, j.fields, parseHyd (j.hydraulics.getD [])⟩ : Section) = s := by
          simpa using hs
        exact ⟨rfl, rfl, rfl⟩
  · unfold mkBorehole
    cases hp : getStr jb.fields "publicid" with
    | none => simp [hp]
    | some p =>
      cases hn : getStr jb.fields "name" with
      | none => simp
      | some n =>
        constructor
        · rintro ⟨b, hb⟩
          refine ⟨rfl, rfl, ?_⟩
          intro sj hsj
          cases hml : mapExcept mkSection (jb.sections.getD []) with
          | error e => rw [hml] at hb; simp at hb
          | ok secs =>
            have := (mapExcept_ok_iff mkSection (jb.sections.getD [])).mp ⟨secs, hml⟩
            exact (mkSection_ok_iff sj).mp (this sj hsj)
        · rintro ⟨-, -, hall⟩
          have : ∀ sj ∈ jb.sections.getD [], ∃ s, mkSection sj = .ok s :=
            fun sj hsj => (mkSection_ok_iff sj).mpr (hall sj hsj)
          obtain ⟨secs, hsecs⟩ := (mapExcept_ok_iff mkSection (jb.sections.getD [])).mpr this
          rw [hsecs]
          exact ⟨⟨p, n, jb.fields, secs⟩, rfl⟩
  · intro b hb
    unfold mkBorehole at hb
    cases hp : getStr jb.fields "publicid" with
    | none => rw [hp] at hb; simp at hb
    | some p =>
      rw [hp] at hb
      cases hn : getStr jb.fields "name" with
      | none => rw [hn] at hb; simp at hb
      | some n =>
        rw [hn] at hb
        cases hml : mapExcept mkSection (jb.sections.getD []) with
        | error e => rw [hml] at hb; simp at hb
        | ok secs =>
          rw [hml] at hb
          obtain rfl : (⟨p, n, jb.fields, secs⟩ : Borehole) = b := by simpa using hb
          rfl

theorem c9_required_fields_witness :
    (∃ s, mkSection demoSectionJsonA = .ok s) ∧
    (∃ b, mkBorehole demoBoreholeJson = .ok b) :=
  ⟨(c9_required_fields demoSectionJsonA demoBoreholeJson).1.mpr ⟨by decide, by decide⟩,
   (c9_required_fields demoSectionJsonA demoBoreholeJson).2.2.1.mpr
     ⟨by decide, by decide, by decide⟩⟩

theorem findIdx_of_nodup_key (f : Section → String) (l : List Section) :
    ∀ (i : Nat) (s : Section), (l.map f).Nodup → l[i]? = some s →
      l.findIdx? (fun x => f x == f s) = some i := by
  induction l with
  | nil =>
    intro i s _ h
    simp at h
  | cons a tl ih =>
    intro i s hnd hget
    rw [List.map_cons, List.nodup_cons] at hnd
    obtain ⟨ha, htl⟩ := hnd
    cases i with
    | zero =>
      obtain rfl : a = s := by simpa using hget
      rw [List.findIdx?_cons]
      simp
    | succ j =>
      rw [List.getElem?_cons_succ] at hget
      have hmem : s ∈ tl := List.getElem?_mem hget
      have hne : (f a == f s) = false := by
        cases hbe : f a == f s with
        | true => exact absurd (List.mem_map.mpr ⟨s, hmem, (eq_of_beq hbe).symm⟩) ha
        | false => rfl
      rw [List.findIdx?_cons]
      simp only [hne, Bool.false_eq_true, if_false]
      rw [List.findIdx?_succ, ih j s htl hget]
      rfl

/-- C2: in a Borehole constructed from JSON, indexing by a contained
Section's publicid and looking its name up in the name-keyed index resolve
to the same address into the single owned section store — the two access
paths dereference to the identical Section object (not a copy), so an edit
through one access path is visible through the other. -/
theorem c2_dual_access_identity (jb : BoreholeJson) (b : Borehole) (i : Nat) (s : Section)
    (_hb : mkBorehole jb = .ok b)
    (hid : (b.store.map Section.publicid).Nodup)
    (hname : (b.store.map Section.name).Nodup)
    (hs : b.store[i]? = some s) :
    addrOfId b s.publicid = some i ∧ addrOfName b s.name = some i := by
  unfold addrOfId addrOfName
  exact ⟨findIdx_of_nodup_key Section.publicid b.store i s hid hs,
    findIdx_of_nodup_key Section.name b.store i s hname hs⟩

theorem c2_dual_access_identity_witness :
    addrOfId demoBorehole "id-sec-2" = some 1 ∧
    addrOfName demoBorehole "16A-32/section_02" = some 1 :=
  c2_dual_access_identity demoBoreholeJson demoBorehole 1
    ⟨"id-sec-2", "16A-32/section_02", demoSectionJsonB.fields, ⟨[], []⟩⟩
    rfl (by decide) (by decide) rfl

theorem replaceHydAt_getElem_eq (l : List Section) (i : Nat) (t : HydTable) (s : Section)
    (h : l[i]? = some s) :
    (replaceHydAt l i t)[i]? = some ⟨s.publicid, s.name, s.metadata, t⟩ := by
  induction l generalizing i with
  | nil => simp at h
  | cons a tl ih =>
    cases i with
    | zero =>
      have ha : a = s := by simpa using h
      subst ha
      simp [replaceHydAt, List.getElem?_cons_zero]
    | succ j =>
      rw [List.getElem?_cons_succ] at h
      show (a :: replaceHydAt tl j t)[j + 1]? = _
      rw [List.getElem?_cons_succ]
      exact ih j h

theorem replaceHydAt_getElem_ne (l : List Section) (i j : Nat) (t : HydTable)
    (h : j ≠ i) : (replaceHydAt l i t)[j]? = l[j]? := by
  induction l generalizing i j with
  | nil => rfl
  | cons a tl ih =>
    cases i with
    | zero =>
      cases j with
      | zero => exact absurd rfl h
      | succ k =>
        show (_ :: tl)[k + 1]? = (a :: tl)[k + 1]?
        rw [List.getElem?_cons_succ, List.getElem?_cons_succ]
    | succ i' =>
      cases j with
      | zero => simp [replaceHydAt, List.getElem?_cons_zero]
      | succ k =>
        show (a :: replaceHydAt tl i' t)[k + 1]? = (a :: tl)[k + 1]?
        rw [List.getElem?_cons_succ, List.getElem?_cons_succ]
        exact ih i' k (fun e => h (congrArg Nat.succ e))

/-- C7: the load-back operation replaces the targeted Section's hydraulics
series entirely (full replacement, not a merge) and changes nothing else —
the borehole's own identifiers and metadata, the targeted Section's
identifiers and metadata, and every sibling Section are unchanged. -/
theorem c7_loadback_frame (b : Borehole) (ref : String) (t : HydTable)
    (b' : Borehole) (i : Nat) (s : Section)
    (hres : addrOfId b ref = some i)
    (hload : loadHydraulicsDataframe b ref t = .ok b')
    (hs : b.store[i]? = some s) :
    b'.publicid = b.publicid ∧ b'.name = b.name ∧ b'.metadata = b.metadata ∧
    b'.store[i]? = some ⟨s.publicid, s.name, s.metadata, t⟩ ∧
    ∀ j, j ≠ i → b'.store[j]? = b.store[j]? := by
  unfold loadHydraulicsDataframe at hload
  rw [hres] at hload
  obtain rfl :
      (⟨b.publicid, b.name, b.metadata, replaceHydAt b.store i t⟩ : Borehole) = b' := by
    simpa using hload
  refine ⟨rfl, rfl, rfl, ?_, ?_⟩
  · exact replaceHydAt_getElem_eq b.store i t s hs
  · intro j hj
    exact replaceHydAt_getElem_ne b.store i j t hj

theorem c7_loadback_frame_witness :
    demoBoreholeLoaded.publicid = demoBorehole.publicid ∧
    demoBoreholeLoaded.name = demoBorehole.name ∧
    demoBoreholeLoaded.metadata = demoBorehole.metadata ∧
    demoBoreholeLoaded.store[0]? =
      some ⟨"id-sec-1", "16A-32/section_01", demoSectionJsonA.fields, demoTable⟩ ∧
    demoBoreholeLoaded.store[1]? = demoBorehole.store[1]? := by
  have h := c7_loadback_frame demoBorehole "id-sec-1" demoTable demoBoreholeLoaded 0
    ⟨"id-sec-1", "16A-32/section_01", demoSectionJsonA.fields, ⟨[], []⟩⟩
    rfl rfl rfl
  exact ⟨h.1, h.2.1, h.2.2.1, h.2.2.2.1, h.2.2.2.2 1 (by decide)⟩

/-- C3: reference resolution first attempts an exact match against the
publicid values of the freshly fetched listing (a publicid match wins even
if the input also occurs as a name); only if that fails does it attempt an
exact match against the name values; and when both fail it produces a
ReferenceNotFound carrying the literal input string and the entity kind,
never an empty result. -/
theorem c3_resolution_order (listing : List (String × String)) (kind : Entity)
    (ref : String) :
    (ref ∈ listing.map Prod.snd → resolveRef listing kind ref = .ok ref) ∧
    (ref ∉ listing.map Prod.snd →
      ∀ p, listing.find? (fun q => q.1 == ref) = some p →
        resolveRef listing kind ref = .ok p.2) ∧
    (ref ∉ listing.map Prod.snd → ref ∉ listing.map Prod.fst →
      resolveRef listing kind ref = .error ⟨ref, kind⟩) := by
  have hnone_id : ref ∉ listing.map Prod.snd →
      listing.find? (fun p => p.2 == ref) = none := by
    intro h
    rw [List.find?_eq_none]
    intro x hx hbe
    exact h (List.mem_map.mpr ⟨x, hx, eq_of_beq hbe⟩)
  refine ⟨?_, ?_, ?_⟩
  · intro h
    obtain ⟨x, hx, rfl⟩ := List.mem_map.mp h
    unfold resolveRef
    cases hf : listing.find? (fun p => p.2 == x.2) with
    | none =>
      rw [List.find?_eq_none] at hf
      exact absurd (by simp) (hf x hx)
    | some p =>
      have hp := List.find?_some hf
      have hpe : p.2 = x.2 := eq_of_beq hp
      show Except.ok p.2 = Except.ok x.2
      rw [hpe]
  · intro h p hp
    unfold resolveRef
    rw [hnone_id h, hp]
  · intro h hn
    have hnn : listing.find? (fun q => q.1 == ref) = none := by
      rw [List.find?_eq_none]
      intro x hx hbe
      exact hn (List.mem_map.mpr ⟨x, hx, eq_of_beq hbe⟩)
    unfold resolveRef
    rw [hnone_id h, hnn]

theorem c3_resolution_order_witness :
    resolveRef [("16A-32", "id-bh-a"), ("16B-32", "id-bh-b")] .boreholeKind "zzz" =
      .error ⟨"zzz", .boreholeKind⟩ ∧
    resolveRef [("16A-32", "id-bh-a"), ("16B-32", "id-bh-b")] .boreholeKind "id-bh-b" =
      .ok "id-bh-b" :=
  ⟨(c3_resolution_order [("16A-32", "id-bh-a"), ("16B-32", "id-bh-b")] .boreholeKind
      "zzz").2.2 (by decide) (by decide),
   (c3_resolution_order [("16A-32", "id-bh-a"), ("16B-32", "id-bh-b")] .boreholeKind
      "id-bh-b").1 (by decide)⟩

/-- C4: every time-scoped fetch (get_borehole, get_section,
get_section_hydraulics) called with start > end fails with InvalidTimeRange
and issues no network request at all — the request trace of the error path
is empty. -/
theorem c4_invalid_time_range (srv : Server) (bref sref : String)
    (start finish : Nat) (fmt : HydFormat) (h : finish < start) :
    getBorehole srv bref start finish = (.error .invalidTimeRange, []) ∧
    getSection srv bref sref start finish = (.error .invalidTimeRange, []) ∧
    getSectionHydraulics srv bref sref start finish fmt =
      (.error .invalidTimeRange, []) := by
  have hb : getBorehole srv bref start finish = (.error .invalidTimeRange, []) := by
    unfold getBorehole
    rw [if_pos h]
  have hsct : getSection srv bref sref start finish = (.error .invalidTimeRange, []) := by
    unfold getSection
    rw [if_pos h]
  refine ⟨hb, hsct, ?_⟩
  unfold getSectionHydraulics
  rw [hsct]

theorem c4_invalid_time_range_witness :
    getBorehole demoServer "16A-32" 10 5 = (.error .invalidTimeRange, []) ∧
    getSection demoServer "16A-32" "16A-32/section_01" 10 5 =
      (.error .invalidTimeRange, []) ∧
    getSectionHydraulics demoServer "16A-32" "16A-32/section_01" 10 5 .pandas =
      (.error .invalidTimeRange, []) :=
  c4_invalid_time_range demoServer "16A-32" "16A-32/section_01" 10 5 .pandas
    (by decide)

/-- C10: with default arguments the name-listing operations return plain
name strings only, in service order; (name, publicid) pairs are produced
exactly when the caller explicitly requests both fields. -/
theorem c10_default_names_only (srv : Server) (bref bid : String) (b : BoreholeInfo)
    (f : NameFields) (l : List (String × String))
    (hres : resolveBorehole srv bref = .ok bid)
    (hfind : findBorehole srv bid = some b) :
    listBoreholeNames srv = .names ((listBoreholes srv).map BoreholeInfo.name) ∧
    listSectionNames srv bref = .ok (.names (b.sections.map SectionInfo.name)) ∧
    (listBoreholeNamesWith srv f = .pairs l ↔
      (f = .both ∧ l = boreholeListing srv)) := by
  refine ⟨?_, ?_, ?_⟩
  · show NamesResult.names ((boreholeListing srv).map Prod.fst) = _
    rw [boreholeListing, List.map_map]
    rfl
  · unfold listSectionNames listSectionNamesWith
    simp only [hres, hfind]
    show Except.ok (NamesResult.names ((sectionListing b).map Prod.fst)) = _
    rw [sectionListing, List.map_map]
    rfl
  · cases f <;> simp [listBoreholeNamesWith, selectFields, eq_comm]

theorem c10_default_names_only_witness :
    listBoreholeNames demoServer = .names ["16A-32", "16B-32"] ∧
    listSectionNames demoServer "16A-32" =
      .ok (.names ["16A-32/section_01", "16A-32/section_02"]) ∧
    (listBoreholeNamesWith demoServer .both =
        .pairs [("16A-32", "id-bh-a"), ("16B-32", "id-bh-b")] ↔
      (NameFields.both = .both ∧
        [("16A-32", "id-bh-a"), ("16B-32", "id-bh-b")] = boreholeListing demoServer)) :=
  c10_default_names_only demoServer "16A-32" "id-bh-a" demoBoreholeInfo .both
    [("16A-32", "id-bh-a"), ("16B-32", "id-bh-b")] rfl rfl

/-- C5 counterexample: with default arguments `list_borehole_names` returns
the plain name list, not the sequence of (name, publicid) pairs the claim
asserts — exactly as the user-guide notebook's recorded output shows. -/
theorem c5_counterexample_default_not_pairs :
    listBoreholeNames demoServer ≠
      .pairs ((listBoreholes demoServer).map (fun b => (b.name, b.publicid))) := by
  decide

/-- C5 amended: when both fields are requested, `list_borehole_names`
returns the (name, publicid) pairs derived from `list_boreholes` preserving
service order, and `list_section_names` analogously returns the resolved
borehole's section (name, publicid) pairs in service order; with default
arguments only the plain names are returned. -/
theorem c5_pairs_in_service_order (srv : Server) (bref bid : String) (b : BoreholeInfo)
    (hres : resolveBorehole srv bref = .ok bid)
    (hfind : findBorehole srv bid = some b) :
    listBoreholeNamesWith srv .both =
      .pairs ((listBoreholes srv).map (fun x => (x.name, x.publicid))) ∧
    listSectionNamesWith srv bref .both =
      .ok (.pairs (b.sections.map (fun s => (s.name, s.publicid)))) := by
  constructor
  · rfl
  · unfold listSectionNamesWith
    simp only [hres, hfind]
    rfl

theorem c5_pairs_in_service_order_witness :
    listBoreholeNamesWith demoServer .both =
      .pairs [("16A-32", "id-bh-a"), ("16B-32", "id-bh-b")] ∧
    listSectionNamesWith demoServer "16A-32" .both =
      .ok (.pairs [("16A-32/section_01", "id-sec-1"), ("16A-32/section_02", "id-sec-2")]) :=
  c5_pairs_in_service_order demoServer "16A-32" "id-bh-a" demoBoreholeInfo rfl rfl
